import Mathlib

/-!
# Phone Book Management System (`PBMS.cpp`)

A shallow embedding of `src/C++project/PBMS.cpp`.

* A `std::string` is a `Text`: the list of its `char`s.
* A `Contact *` held by the phone book is the `Contact` value it points to;
  the two classes `Contact` and `BusinessContact` are the two constructors.
* The process state (`World`) holds the static counter
  `Contact::totalContacts`, the vector `PhoneBook::contacts`, the characters
  written to `std::cout` and the bytes of `phonebook.txt`.
* The lines a method reads from `std::cin` are arguments of the method, and
  whether a file stream opens is an argument of `saveToFile`/`loadFromFile`.
* `int` indices are `Int`: `static_cast<int>(i)` is the identity on every index
  below `2^31`, and vectors of `2^31` or more contacts are outside the model.
-/

namespace PBMS

/-- A `std::string`, as the list of its characters. -/
abbrev Text := List Char

/-- The class hierarchy `Contact` / `BusinessContact : public Contact`. -/
inductive Contact where
  | basic (name phone : Text)
  | business (name phone company : Text)
  deriving DecidableEq, Repr

/-- `Contact::getName`. -/
def Contact.getName : Contact → Text
  | .basic n _ => n
  | .business n _ _ => n

/-- `Contact::getPhone`. -/
def Contact.getPhone : Contact → Text
  | .basic _ p => p
  | .business _ p _ => p

/-- `cout << left << setw(w) << s`: the string, then fill characters (spaces)
up to the field width `w`; a string of `w` or more characters is written in
full. The width applies to this one insertion only. -/
def setw (w : Nat) (s : Text) : Text :=
  s ++ List.replicate (w - s.length) ' '

/-- The virtual `display()`: the characters it writes to `cout`, the final
`endl` included. `Contact::display` writes two fields, the override in
`BusinessContact` three. -/
def Contact.display : Contact → Text
  | .basic name phone => setw 20 name ++ setw 15 phone ++ ['\n']
  | .business name phone company =>
      setw 20 name ++ setw 15 phone ++ setw 20 company ++ ['\n']

/-- The loop of `searchContact`, with `i` the current index and `contacts`
the elements from index `i` on. -/
def searchContactFrom (key : Text) : List Contact → Nat → Int
  | [], _ => -1
  | c :: rest, i =>
      if c.getName = key then (i : Int) else searchContactFrom key rest (i + 1)

/-- The template function `searchContact`: the index of the first contact
whose name equals `key`, or `-1`. -/
def searchContact (contacts : List Contact) (key : Text) : Int :=
  searchContactFrom key contacts 0

/-- The class `FileException`. -/
structure FileException where
  deriving DecidableEq, Repr

/-- `FileException::what`. -/
def FileException.what (_ : FileException) : Text :=
  "File could not be opened!".toList

/-- The state of the process and of the file it persists to. -/
structure World where
  /-- The static member `Contact::totalContacts`. -/
  totalContacts : Int
  /-- The member `PhoneBook::contacts`, in vector order. -/
  contacts : List Contact
  /-- The characters written to `std::cout` so far. -/
  cout : Text
  /-- The content of `phonebook.txt`. -/
  file : Text
  deriving DecidableEq, Repr

/-- The state when `main` starts (`totalContacts = 0`, `PhoneBook pb;`) with
`phonebook.txt` holding `file`. -/
def World.start (file : Text) : World :=
  { totalContacts := 0, contacts := [], cout := [], file := file }

/-- `cout << s`. -/
def World.print (w : World) (s : String) : World :=
  { w with cout := w.cout ++ s.toList }

/-- `contacts.push_back(new Contact(...))` (or `new BusinessContact(...)`):
the constructor increments the counter, the pointer goes to the end of the
vector. -/
def World.pushNew (w : World) (c : Contact) : World :=
  { w with totalContacts := w.totalContacts + 1, contacts := w.contacts ++ [c] }

/-- `PhoneBook::addContact`, with `type`, `name`, `phone` and `company` the
values read from `cin` (`company` is only read when `type == 2`). -/
def addContact (type : Int) (name phone company : Text) (w : World) : World :=
  let w := w.print "\n1. Personal Contact\n2. Business Contact\nEnter type: "
  let w := w.print "Enter Name: "
  let w := w.print "Enter Phone: "
  let w :=
    if type = 2 then
      (w.print "Enter Company: ").pushNew (.business name phone company)
    else
      w.pushNew (.basic name phone)
  w.print "\n Contact added successfully!\n"

/-- `PhoneBook::deleteContact`, with `key` the line read from `cin`. On a hit
the object is destroyed (the destructor decrements the counter) and its slot
is erased from the vector. -/
def deleteContact (key : Text) (w : World) : World :=
  let w := w.print "Enter name to delete: "
  let index := searchContact w.contacts key
  if index ≠ -1 then
    let w := { w with totalContacts := w.totalContacts - 1,
                      contacts := w.contacts.eraseIdx index.toNat }
    w.print " Contact deleted successfully!\n"
  else
    w.print " Contact not found!\n"

/-- `std::getline(fin, line)` on the unread part of the stream: `none` when
no character can be extracted (end of file), else the characters up to the
next newline, the newline itself being consumed, and the part still unread.
A last line without a newline is returned as it is. -/
def getline : Text → Option (Text × Text)
  | [] => none
  | c :: cs =>
      if c = '\n' then some ([], cs)
      else
        match getline cs with
        | none => some ([c], [])
        | some (line, rest) => some (c :: line, rest)

/-- `line.find(ch)`: the position of the first `ch`, `none` for
`string::npos`. -/
def find (ch : Char) : Text → Option Nat
  | [] => none
  | c :: cs => if c = ch then some 0 else (find ch cs).map (· + 1)

/-- `line.substr(pos, n)`. -/
def substr (line : Text) (pos n : Nat) : Text :=
  (line.drop pos).take n

/-- `line.substr(pos)`. -/
def substrFrom (line : Text) (pos : Nat) : Text :=
  line.drop pos

/-- The body of the `while` loop of `loadFromFile` for one line. -/
def loadLine (line : Text) (w : World) : World :=
  match find ',' line with
  | some pos =>
      let n := substr line 0 pos
      let p := substrFrom line (pos + 1)
      w.pushNew (.basic n p)
  | none => w

/-- The loop `while (getline(fin, line)) ...` of `loadFromFile` on the unread
part `fin` of the stream. Every iteration consumes at least one character, so
`fin.length + 1` iterations are enough (`loadLoop_eq_foldl`). -/
def loadLoop : Nat → Text → World → World
  | 0, _, w => w
  | fuel + 1, fin, w =>
      match getline fin with
      | none => w
      | some (line, rest) => loadLoop fuel rest (loadLine line w)

/-- `PhoneBook::loadFromFile`; `opens` tells whether
`ifstream fin("phonebook.txt")` could open the file. The result is the
exception thrown, if any, and the state the call leaves. -/
def loadFromFile (opens : Bool) (w : World) : Except FileException Unit × World :=
  if !opens then (.error {}, w)
  else
    let w := loadLoop (w.file.length + 1) w.file w
    (.ok (), w.print " Contacts loaded successfully!\n")

/-- `PhoneBook::saveToFile`; `opens` tells whether
`ofstream fout("phonebook.txt")` could open the file, which truncates it. The
result is the exception thrown, if any, and the state the call leaves. -/
def saveToFile (opens : Bool) (w : World) : Except FileException Unit × World :=
  if !opens then (.error {}, w)
  else
    let fout : Text :=
      w.contacts.foldl
        (fun fout c => fout ++ c.getName ++ [','] ++ c.getPhone ++ ['\n']) []
    (.ok (), { w with file := fout }.print " Contacts saved successfully!\n")

/-- A phone book with three contacts, two of them named `Bob`. -/
def sampleWorld : World :=
  { totalContacts := 3
    contacts := [.basic "Ann".toList "555-1111".toList,
                 .business "Bob".toList "555-2222".toList "Acme".toList,
                 .basic "Bob".toList "555-3333".toList]
    cout := []
    file := [] }

/-- A phone book whose only contact has a comma in its name. -/
def commaWorld : World :=
  { totalContacts := 1
    contacts := [.basic "a,b".toList "1".toList]
    cout := []
    file := [] }
/-- The lines of a file whose second line has no comma. -/
def garbageLines : List Text :=
  ["Alice,111".toList, "garbage".toList, "Bob,222".toList]

/-- The file made of `garbageLines`. -/
def garbageFile : Text :=
  "Alice,111\ngarbage\nBob,222\n".toList

/-- `cout << s` for a `std::string`. -/
def World.printText (w : World) (s : Text) : World :=
  { w with cout := w.cout ++ s }

/-- `cout << n` for an `int`: its decimal digits, after a minus sign when it
is negative. -/
def World.printInt (w : World) (n : Int) : World :=
  { w with cout := w.cout ++ (toString n).toList }

/-- The friend function `showContactDetails`: it writes the members `name`
and `phone` of the `Contact` base object. -/
def showContactDetails (c : Contact) (w : World) : World :=
  let w := w.print "\n--- Contact Details ---\n"
  let w := ((w.print "Name: ").printText c.getName).print "\nPhone: "
  (w.printText c.getPhone).print "\n"

/-- `PhoneBook::searchByName`, with `key` the line read from `cin`.
`contacts[index]` is only evaluated for an index `searchContact` returned, which
is in range (`searchContact_cases`), so the last branch is never taken. -/
def searchByName (key : Text) (w : World) : World :=
  let w := w.print "Enter name to search: "
  let index := searchContact w.contacts key
  if index ≠ -1 then
    let w := w.print "\nContact Found!\n"
    match w.contacts[index.toNat]? with
    | some c => showContactDetails c w
    | none => w
  else
    w.print " Contact not found!\n"

/-- `PhoneBook::displayAll`: the header, one `display()` per contact in
vector order, and the footer with `Contact::getTotalContacts()`. -/
def displayAll (w : World) : World :=
  let w := w.print "\n---------------------------------------------\n"
  let w := w.printText
    (setw 20 "Name".toList ++ setw 15 "Phone".toList ++ setw 20 "Company".toList ++ ['\n'])
  let w := w.print "---------------------------------------------\n"
  let w := w.contacts.foldl (fun w c => w.printText c.display) w
  let w := w.print "---------------------------------------------\n"
  ((w.print "Total Contacts: ").printInt w.totalContacts).print "\n"

/-- The statement
`try { call } catch (FileException &e) { cout << " " << e.what() << endl; }`
that `main` wraps around its calls: the state after the statement, given the
outcome of the call. -/
def catchFileException (r : Except FileException Unit × World) : World :=
  match r with
  | (.ok _, w) => w
  | (.error e, w) => ((w.print " ").printText e.what).print "\n"

/-- The part of `main` before the menu loop: the banner and the guarded
`pb.loadFromFile()`, started with `phonebook.txt` holding `file`; `opens` tells
whether the file could be opened. The result is the state on entry to
`while (true)`. -/
def mainStartup (opens : Bool) (file : Text) : World :=
  let w := World.start file
  let w := w.print "\n=============================================="
  let w := w.print "\n     PHONE BOOK MANAGEMENT SYSTEM (C++)"
  let w := w.print "\n==============================================\n"
  catchFileException (loadFromFile opens w)

/-- One call of a public method of `PhoneBook`, with the values the call reads
from `cin` and, for the two file methods, whether the file opens. -/
inductive Op where
  | load (opens : Bool)
  | add (type : Int) (name phone company : Text)
  | displayAll
  | search (key : Text)
  | delete (key : Text)
  | save (opens : Bool)
  deriving DecidableEq, Repr

/-- The state after one method call made the way `main` makes it, a
`FileException` being caught and reported. -/
def Op.run : Op → World → World
  | .load opens, w => catchFileException (loadFromFile opens w)
  | .add type name phone company, w => addContact type name phone company w
  | .displayAll, w => PBMS.displayAll w
  | .search key, w => searchByName key w
  | .delete key, w => deleteContact key w
  | .save opens, w => catchFileException (saveToFile opens w)

/-- The state after a sequence of method calls, first call first. -/
def runOps (ops : List Op) (w : World) : World :=
  ops.foldl (fun w op => op.run w) w

/-- A phone book with an empty name, empty phones and a phone that has
commas, but no comma in a name and no newline anywhere. -/
def plainWorld : World :=
  { totalContacts := 3
    contacts := [.basic [] [],
                 .business "Bob".toList "1,2,3".toList "Acme".toList,
                 .basic "Ann".toList []]
    cout := []
    file := [] }

/-! # Theorems -/

/-! ## `searchContact` -/

theorem searchContactFrom_eq_neg_one (key : Text) (cs : List Contact) (i : Nat) :
    searchContactFrom key cs i = -1 ↔ ∀ c ∈ cs, c.getName ≠ key := by
  induction cs generalizing i with
  | nil => simp [searchContactFrom]
  | cons c rest ih =>
    by_cases h : c.getName = key
    · simp only [searchContactFrom, h, if_true, List.mem_cons, forall_eq_or_imp, ne_eq,
        not_true_eq_false, false_and, iff_false]
      omega
    · simp [searchContactFrom, h, ih]

theorem searchContactFrom_ge (key : Text) (cs : List Contact) (i : Nat) :
    searchContactFrom key cs i = -1 ∨ (i : Int) ≤ searchContactFrom key cs i := by
  induction cs generalizing i with
  | nil => simp [searchContactFrom]
  | cons c rest ih =>
    by_cases h : c.getName = key
    · simp [searchContactFrom, h]
    · simp only [searchContactFrom, h, if_false]
      rcases ih (i + 1) with h1 | h1
      · exact Or.inl h1
      · right; push_cast at h1; omega

theorem searchContactFrom_eq_add (key : Text) (cs : List Contact) (i n : Nat) :
    searchContactFrom key cs i = ((i + n : Nat) : Int) ↔
      ((cs.map Contact.getName)[n]? = some key ∧
        ∀ j, j < n → (cs.map Contact.getName)[j]? ≠ some key) := by
  induction cs generalizing i n with
  | nil => simp [searchContactFrom]; omega
  | cons c rest ih =>
    by_cases h : c.getName = key
    · simp only [searchContactFrom, h, if_true]
      cases n with
      | zero => simp [h]
      | succ m =>
        constructor
        · intro h1; push_cast at h1; omega
        · rintro ⟨_, h2⟩
          exact absurd (by simp [h]) (h2 0 (Nat.succ_pos m))
    · simp only [searchContactFrom, h, if_false]
      cases n with
      | zero =>
        constructor
        · intro h1
          rcases searchContactFrom_ge key rest (i + 1) with h2 | h2
          · rw [h2] at h1; omega
          · rw [h1] at h2; push_cast at h2; omega
        · rintro ⟨h1, _⟩
          simp [h] at h1
      | succ m =>
        have e : i + (m + 1) = (i + 1) + m := by omega
        rw [e, ih (i + 1) m]
        constructor
        · rintro ⟨h1, h2⟩
          refine ⟨by simpa using h1, ?_⟩
          intro j hj
          cases j with
          | zero => simp [h]
          | succ k => simpa using h2 k (by omega)
        · rintro ⟨h1, h2⟩
          refine ⟨by simpa using h1, ?_⟩
          intro j hj
          simpa using h2 (j + 1) (by omega)

theorem searchContact_eq_neg_one (cs : List Contact) (key : Text) :
    searchContact cs key = -1 ↔ ∀ c ∈ cs, c.getName ≠ key :=
  searchContactFrom_eq_neg_one key cs 0

theorem searchContact_eq_index (cs : List Contact) (key : Text) (i : Nat) :
    searchContact cs key = (i : Int) ↔
      ((cs.map Contact.getName)[i]? = some key ∧
        ∀ j, j < i → (cs.map Contact.getName)[j]? ≠ some key) := by
  have := searchContactFrom_eq_add key cs 0 i
  simpa [searchContact] using this

theorem searchContact_cases (cs : List Contact) (key : Text) :
    searchContact cs key = -1 ∨
      ∃ i : Nat, i < cs.length ∧ searchContact cs key = (i : Int) := by
  rcases searchContactFrom_ge key cs 0 with h | h
  · exact Or.inl h
  · right
    refine ⟨(searchContact cs key).toNat, ?_, ?_⟩
    · have e : searchContact cs key = ((searchContact cs key).toNat : Int) := by
        simp only [searchContact]; omega
      have := (searchContact_eq_index cs key _).1 e
      have h1 := this.1
      by_contra hlt
      rw [List.getElem?_eq_none (by simpa using hlt)] at h1
      exact absurd h1 (by simp)
    · simp only [searchContact]; omega

/-- C1: `searchContact` returns the index `i` exactly when `i` is the smallest
index whose contact has a name equal to `key`, it returns `-1` exactly when no
contact has that name, and it returns nothing else. -/
theorem C1_searchContact_first_match (contacts : List Contact) (key : Text) :
    (∀ i : Nat, searchContact contacts key = (i : Int) ↔
      ((contacts.map Contact.getName)[i]? = some key ∧
        ∀ j, j < i → (contacts.map Contact.getName)[j]? ≠ some key)) ∧
    (searchContact contacts key = -1 ↔ ∀ c ∈ contacts, c.getName ≠ key) ∧
    (searchContact contacts key = -1 ∨
      ∃ i : Nat, i < contacts.length ∧ searchContact contacts key = (i : Int)) :=
  ⟨searchContact_eq_index contacts key, searchContact_eq_neg_one contacts key,
    searchContact_cases contacts key⟩


/-! ## `deleteContact` -/

theorem deleteContact_of_found (key : Text) (w : World) (i : Nat)
    (h : searchContact w.contacts key = (i : Int)) :
    deleteContact key w =
      { totalContacts := w.totalContacts - 1
        contacts := w.contacts.eraseIdx i
        cout := w.cout ++ "Enter name to delete: ".toList ++
          " Contact deleted successfully!\n".toList
        file := w.file } := by
  have hne : searchContact w.contacts key ≠ -1 := by rw [h]; omega
  simp only [deleteContact, World.print, hne, ne_eq, not_false_eq_true, if_true]
  rw [h]
  simp

theorem deleteContact_of_not_found (key : Text) (w : World)
    (h : searchContact w.contacts key = -1) :
    deleteContact key w =
      { w with cout := w.cout ++ "Enter name to delete: ".toList ++
          " Contact not found!\n".toList } := by
  simp [deleteContact, World.print, h]

theorem getName_of_found (cs : List Contact) (key : Text) (i : Nat)
    (h : searchContact cs key = (i : Int)) :
    ∃ c, cs[i]? = some c ∧ c.getName = key := by
  have h1 := ((searchContact_eq_index cs key i).1 h).1
  rw [List.getElem?_map] at h1
  cases hc : cs[i]? with
  | none => rw [hc] at h1; simp at h1
  | some c => rw [hc] at h1; exact ⟨c, rfl, by simpa using h1⟩

theorem countP_eraseIdx_of_found (cs : List Contact) (key : Text) (i : Nat)
    (h : searchContact cs key = (i : Int)) :
    (cs.eraseIdx i).countP (fun c => c.getName = key) + 1 =
      cs.countP (fun c => c.getName = key) := by
  obtain ⟨c, hc, hn⟩ := getName_of_found cs key i h
  have hi : i < cs.length := by
    by_contra hlt
    rw [List.getElem?_eq_none (by omega)] at hc
    exact absurd hc (by simp)
  have hsplit : cs = cs.take i ++ c :: cs.drop (i + 1) := by
    have hget : cs[i] = c := by
      rw [List.getElem?_eq_getElem hi] at hc
      exact Option.some.inj hc
    rw [← hget, ← List.drop_eq_getElem_cons hi, List.take_append_drop]
  rw [List.eraseIdx_eq_take_drop_succ]
  conv_rhs => rw [hsplit]
  simp [List.countP_append, List.countP_cons, hn]
  omega

theorem searchContact_eq_neg_one_iff_countP (cs : List Contact) (key : Text) :
    searchContact cs key = -1 ↔ cs.countP (fun c => c.getName = key) = 0 := by
  rw [searchContact_eq_neg_one, List.countP_eq_zero]
  simp

/-- C3: when `searchContact` finds `key` at index `i`, `deleteContact` leaves
the original vector with the element at index `i` removed: one element fewer,
the elements before `i` in place and the elements after `i` moved down by
one. -/
theorem C3_deleteContact_removes_found (w : World) (key : Text) (i : Nat)
    (h : searchContact w.contacts key = (i : Int)) :
    (deleteContact key w).contacts = w.contacts.eraseIdx i ∧
    (deleteContact key w).contacts = w.contacts.take i ++ w.contacts.drop (i + 1) ∧
    (deleteContact key w).contacts.length + 1 = w.contacts.length ∧
    (∀ j, j < i → (deleteContact key w).contacts[j]? = w.contacts[j]?) ∧
    (∀ j, i ≤ j → (deleteContact key w).contacts[j]? = w.contacts[j + 1]?) := by
  obtain ⟨c, hc, _⟩ := getName_of_found w.contacts key i h
  have hi : i < w.contacts.length := by
    by_contra hlt
    rw [List.getElem?_eq_none (by omega)] at hc
    exact absurd hc (by simp)
  rw [deleteContact_of_found key w i h]
  refine ⟨rfl, List.eraseIdx_eq_take_drop_succ _ _, ?_, ?_, ?_⟩
  · simp only [List.length_eraseIdx, hi, if_true]; omega
  · intro j hj
    simp [List.getElem?_eraseIdx, hj]
  · intro j hj
    have : ¬ j < i := by omega
    simp [List.getElem?_eraseIdx, this]

/-- C4: after `deleteContact key`, `searchContact` for the same key returns
`-1` exactly when the vector held at most one contact named `key` before the
call; when it held two or more, the search still returns the index of a
contact named `key`. -/
theorem C4_search_after_delete (w : World) (key : Text) :
    (searchContact (deleteContact key w).contacts key = -1 ↔
      w.contacts.countP (fun c => c.getName = key) ≤ 1) ∧
    (2 ≤ w.contacts.countP (fun c => c.getName = key) →
      ∃ (j : Nat) (c : Contact),
        searchContact (deleteContact key w).contacts key = (j : Int) ∧
        (deleteContact key w).contacts[j]? = some c ∧ c.getName = key) := by
  have key_fact : searchContact (deleteContact key w).contacts key = -1 ↔
      w.contacts.countP (fun c => c.getName = key) ≤ 1 := by
    rcases searchContact_cases w.contacts key with h | ⟨i, _, h⟩
    · rw [deleteContact_of_not_found key w h]
      simp only [h, true_iff]
      have := (searchContact_eq_neg_one_iff_countP w.contacts key).1 h
      omega
    · rw [deleteContact_of_found key w i h]
      simp only
      rw [searchContact_eq_neg_one_iff_countP]
      have := countP_eraseIdx_of_found w.contacts key i h
      omega
  refine ⟨key_fact, ?_⟩
  intro h2
  rcases searchContact_cases (deleteContact key w).contacts key with h | ⟨j, _, h⟩
  · have := key_fact.1 h
    omega
  · obtain ⟨c, hc, hn⟩ := getName_of_found _ key j h
    exact ⟨j, c, h, hc, hn⟩

/-- C5: when no contact is named `key`, `deleteContact` prints
`Contact not found!` and leaves the vector, the counter and the file as they
were. -/
theorem C5_deleteContact_not_found (w : World) (key : Text)
    (h : ∀ c ∈ w.contacts, c.getName ≠ key) :
    (deleteContact key w).contacts = w.contacts ∧
    (deleteContact key w).cout =
      w.cout ++ "Enter name to delete: ".toList ++ " Contact not found!\n".toList ∧
    (deleteContact key w).totalContacts = w.totalContacts ∧
    (deleteContact key w).file = w.file := by
  rw [deleteContact_of_not_found key w ((searchContact_eq_neg_one _ _).2 h)]
  exact ⟨rfl, rfl, rfl, rfl⟩

/-- Witness of C3: in `sampleWorld` the key `Bob` is found at index 1. -/
theorem C3_deleteContact_removes_found_witness :
    searchContact sampleWorld.contacts "Bob".toList = ((1 : Nat) : Int) ∧
    ((deleteContact "Bob".toList sampleWorld).contacts = sampleWorld.contacts.eraseIdx 1 ∧
    (deleteContact "Bob".toList sampleWorld).contacts =
      sampleWorld.contacts.take 1 ++ sampleWorld.contacts.drop (1 + 1) ∧
    (deleteContact "Bob".toList sampleWorld).contacts.length + 1 =
      sampleWorld.contacts.length ∧
    (∀ j, j < 1 →
      (deleteContact "Bob".toList sampleWorld).contacts[j]? = sampleWorld.contacts[j]?) ∧
    (∀ j, 1 ≤ j →
      (deleteContact "Bob".toList sampleWorld).contacts[j]? =
        sampleWorld.contacts[j + 1]?)) :=
  ⟨by decide, C3_deleteContact_removes_found sampleWorld "Bob".toList 1 (by decide)⟩

/-- Witness of C5: nobody in `sampleWorld` is named `Eve`. -/
theorem C5_deleteContact_not_found_witness :
    (∀ c ∈ sampleWorld.contacts, c.getName ≠ "Eve".toList) ∧
    ((deleteContact "Eve".toList sampleWorld).contacts = sampleWorld.contacts ∧
    (deleteContact "Eve".toList sampleWorld).cout =
      sampleWorld.cout ++ "Enter name to delete: ".toList ++
        " Contact not found!\n".toList ∧
    (deleteContact "Eve".toList sampleWorld).totalContacts = sampleWorld.totalContacts ∧
    (deleteContact "Eve".toList sampleWorld).file = sampleWorld.file) :=
  ⟨by decide, C5_deleteContact_not_found sampleWorld "Eve".toList (by decide)⟩

/-! ## `saveToFile` -/

theorem foldl_write_eq (cs : List Contact) (init : Text) :
    cs.foldl (fun fout c => fout ++ c.getName ++ [','] ++ c.getPhone ++ ['\n']) init =
      init ++ cs.flatMap (fun c => c.getName ++ [','] ++ c.getPhone ++ ['\n']) := by
  induction cs generalizing init with
  | nil => simp
  | cons c rest ih =>
    rw [List.foldl_cons, ih, List.flatMap_cons]
    simp only [List.append_assoc]

theorem saveToFile_file (w : World) :
    (saveToFile true w).2.file =
      w.contacts.flatMap (fun c => c.getName ++ [','] ++ c.getPhone ++ ['\n']) := by
  simp only [saveToFile, World.print, foldl_write_eq, Bool.not_true, Bool.false_eq_true,
    if_false, List.nil_append]

/-- C6: a `saveToFile` that opens the file returns normally and leaves in
`phonebook.txt` exactly the concatenation, in vector order, of
`name,phone` and a newline for each contact, whatever the file held before;
the contacts themselves are not touched. For `Alice,111` and the business
contact `Bob,222,Acme` the file is `Alice,111\nBob,222\n`. -/
theorem C6_saveToFile_content (w : World) :
    (saveToFile true w).1 = .ok () ∧
    (saveToFile true w).2.file =
      (w.contacts.map (fun c => c.getName ++ [','] ++ c.getPhone ++ ['\n'])).flatten ∧
    (saveToFile true w).2.contacts = w.contacts ∧
    (saveToFile true
      { w with contacts := [.basic "Alice".toList "111".toList,
                            .business "Bob".toList "222".toList "Acme".toList] }).2.file =
      "Alice,111\nBob,222\n".toList := by
  refine ⟨rfl, ?_, rfl, ?_⟩
  · rw [saveToFile_file, List.flatMap_def]
  · rw [saveToFile_file]; rfl

/-! ## `loadFromFile` -/

theorem getline_line (l rest : Text) (h : '\n' ∉ l) :
    getline (l ++ '\n' :: rest) = some (l, rest) := by
  induction l with
  | nil => simp [getline]
  | cons c cs ih =>
    have hc : c ≠ '\n' := fun e => h (by simp [e])
    have hcs : '\n' ∉ cs := fun e => h (List.mem_cons_of_mem _ e)
    simp [getline, hc, ih hcs]

theorem getline_last (t : Text) (h : '\n' ∉ t) (hne : t ≠ []) :
    getline t = some (t, []) := by
  induction t with
  | nil => exact absurd rfl hne
  | cons c cs ih =>
    have hc : c ≠ '\n' := fun e => h (by simp [e])
    have hcs : '\n' ∉ cs := fun e => h (List.mem_cons_of_mem _ e)
    cases cs with
    | nil => simp [getline, hc]
    | cons d ds => rw [getline, if_neg hc, ih hcs (by simp)]

theorem find_eq_none (ch : Char) (l : Text) : find ch l = none ↔ ch ∉ l := by
  induction l with
  | nil => simp [find]
  | cons c cs ih =>
    by_cases h : c = ch
    · simp [find, h]
    · have h' : ¬ ch = c := fun e => h e.symm
      simp [find, h, h', ih]

theorem find_eq_some (ch : Char) (l : Text) (pos : Nat) (h : find ch l = some pos) :
    ch ∉ l.take pos ∧ l.take pos ++ ch :: l.drop (pos + 1) = l := by
  induction l generalizing pos with
  | nil => simp [find] at h
  | cons c cs ih =>
    by_cases hc : c = ch
    · simp only [find, hc, if_true, Option.some.injEq] at h
      subst h
      simp [hc]
    · simp only [find, hc, if_false, Option.map_eq_some'] at h
      obtain ⟨q, hq, rfl⟩ := h
      have h' : ¬ ch = c := fun e => hc e.symm
      obtain ⟨h1, h2⟩ := ih q hq
      simp [h', h1, h2]

theorem split_first_unique (ch : Char) (n p n' p' : Text) (hn : ch ∉ n) (hn' : ch ∉ n')
    (h : n ++ ch :: p = n' ++ ch :: p') : n = n' ∧ p = p' := by
  induction n generalizing n' with
  | nil =>
    cases n' with
    | nil => simpa using h
    | cons d ds =>
      simp only [List.nil_append, List.cons_append, List.cons.injEq] at h
      exact absurd (by simp [h.1]) hn'
  | cons c cs ih =>
    cases n' with
    | nil =>
      simp only [List.nil_append, List.cons_append, List.cons.injEq] at h
      exact absurd (by simp [h.1]) hn
    | cons d ds =>
      simp only [List.cons_append, List.cons.injEq] at h
      have hcs : ch ∉ cs := fun e => hn (List.mem_cons_of_mem _ e)
      have hds : ch ∉ ds := fun e => hn' (List.mem_cons_of_mem _ e)
      obtain ⟨e1, e2⟩ := ih ds hcs hds h.2
      exact ⟨by rw [h.1, e1], e2⟩

theorem loadLine_of_not_mem (line : Text) (w : World) (h : ',' ∉ line) :
    loadLine line w = w := by
  simp [loadLine, (find_eq_none ',' line).2 h]

theorem loadLine_of_mem (line : Text) (h : ',' ∈ line) :
    ∃ n p, (∀ w : World, loadLine line w = w.pushNew (.basic n p)) ∧
      ',' ∉ n ∧ n ++ ',' :: p = line := by
  cases hf : find ',' line with
  | none => exact absurd h ((find_eq_none ',' line).1 hf)
  | some pos =>
    obtain ⟨h1, h2⟩ := find_eq_some ',' line pos hf
    refine ⟨line.take pos, line.drop (pos + 1), ?_, h1, h2⟩
    intro w
    simp [loadLine, hf, substr, substrFrom]

theorem loadLine_split (n p : Text) (w : World) (hn : ',' ∉ n) :
    loadLine (n ++ ',' :: p) w = w.pushNew (.basic n p) := by
  obtain ⟨n', p', h1, h2, h3⟩ := loadLine_of_mem (n ++ ',' :: p) (by simp)
  obtain ⟨e1, e2⟩ := split_first_unique ',' n' p' n p h2 hn h3
  rw [h1 w, e1, e2]

theorem loadLoop_nil (fuel : Nat) (w : World) : loadLoop fuel [] w = w := by
  cases fuel <;> simp [loadLoop, getline]

/-- The fuel given to `loadLoop` is enough: on a stream made of the lines
`ls`, each closed by a newline, and a last line `last` without one, the loop
runs its body on every line in turn. -/
theorem loadLoop_eq_foldl (ls : List Text) (last : Text) (fuel : Nat) (w : World)
    (hls : ∀ l ∈ ls, '\n' ∉ l) (hlast : '\n' ∉ last) (hfuel : ls.length + 1 ≤ fuel) :
    loadLoop fuel (ls.flatMap (fun l => l ++ ['\n']) ++ last) w =
      (ls ++ if last = [] then [] else [last]).foldl (fun w l => loadLine l w) w := by
  induction ls generalizing fuel w with
  | nil =>
    by_cases hl : last = []
    · simp [hl, loadLoop_nil]
    · obtain ⟨f, rfl⟩ : ∃ f, fuel = f + 1 := ⟨fuel - 1, by simp at hfuel; omega⟩
      simp [loadLoop, getline_last last hlast hl, loadLoop_nil, hl]
  | cons l ls ih =>
    obtain ⟨f, rfl⟩ : ∃ f, fuel = f + 1 := ⟨fuel - 1, by omega⟩
    have hl : '\n' ∉ l := hls l (by simp)
    have hrest : ∀ l' ∈ ls, '\n' ∉ l' := fun l' h' => hls l' (List.mem_cons_of_mem _ h')
    have e : (l :: ls).flatMap (fun l => l ++ ['\n']) ++ last =
        l ++ '\n' :: (ls.flatMap (fun l => l ++ ['\n']) ++ last) := by
      simp [List.flatMap_cons, List.append_assoc]
    rw [e]
    simp only [loadLoop, getline_line l _ hl]
    rw [ih f (loadLine l w) hrest (by simp at hfuel; omega)]
    simp

theorem length_le_length_flatMap (ls : List Text) :
    ls.length ≤ (ls.flatMap (fun l => l ++ ['\n'])).length := by
  induction ls with
  | nil => simp
  | cons l ls ih =>
    rw [List.flatMap_cons, List.length_append, List.length_append]
    simp only [List.length_cons, List.length_nil]
    omega

theorem foldl_loadLine_contacts (ls : List Text) (w : World) :
    ∃ added,
      (ls.foldl (fun w l => loadLine l w) w).contacts = w.contacts ++ added ∧
      List.Forall₂ (fun l c => ∃ n p, c = Contact.basic n p ∧ ',' ∉ n ∧ n ++ ',' :: p = l)
        (ls.filter (fun l => ',' ∈ l)) added := by
  induction ls generalizing w with
  | nil => exact ⟨[], by simp⟩
  | cons l ls ih =>
    by_cases hl : ',' ∈ l
    · obtain ⟨n, p, h1, h2, h3⟩ := loadLine_of_mem l hl
      have h1 := h1 w
      obtain ⟨added, ha, hb⟩ := ih (loadLine l w)
      refine ⟨.basic n p :: added, ?_, ?_⟩
      · rw [List.foldl_cons, ha, h1]
        simp [World.pushNew]
      · simp only [List.filter_cons, hl, decide_True, if_true]
        exact List.Forall₂.cons ⟨n, p, rfl, h2, h3⟩ hb
    · obtain ⟨added, ha, hb⟩ := ih (loadLine l w)
      refine ⟨added, ?_, ?_⟩
      · rw [List.foldl_cons, ha, loadLine_of_not_mem l w hl]
      · simpa [List.filter_cons, hl] using hb

theorem loadFromFile_eq (w : World) (ls : List Text) (last : Text)
    (hls : ∀ l ∈ ls, '\n' ∉ l) (hlast : '\n' ∉ last)
    (hfile : w.file = ls.flatMap (fun l => l ++ ['\n']) ++ last) :
    loadFromFile true w =
      (.ok (), ((ls ++ if last = [] then [] else [last]).foldl
        (fun w l => loadLine l w) w).print " Contacts loaded successfully!\n") := by
  have hfuel : ls.length + 1 ≤ w.file.length + 1 := by
    have := length_le_length_flatMap ls
    rw [hfile, List.length_append]; omega
  simp only [loadFromFile, Bool.not_true, Bool.false_eq_true, if_false]
  have h := loadLoop_eq_foldl ls last (w.file.length + 1) w hls hlast hfuel
  rw [← hfile] at h
  rw [h]

/-- Every file is a sequence of newline-terminated lines followed by a last
line without a newline (empty when the file ends in a newline). -/
theorem exists_lines (file : Text) :
    ∃ (ls : List Text) (last : Text), (∀ l ∈ ls, '\n' ∉ l) ∧ '\n' ∉ last ∧
      file = ls.flatMap (fun l => l ++ ['\n']) ++ last := by
  induction file with
  | nil => exact ⟨[], [], by simp⟩
  | cons c cs ih =>
    obtain ⟨ls, last, h1, h2, h3⟩ := ih
    by_cases hc : c = '\n'
    · refine ⟨[] :: ls, last, ?_, h2, ?_⟩
      · intro l hl
        rcases List.mem_cons.1 hl with e | e
        · simp [e]
        · exact h1 l e
      · simp [List.flatMap_cons, hc, h3]
    · have hc' : ¬ '\n' = c := fun e => hc e.symm
      cases ls with
      | nil =>
        refine ⟨[], c :: last, by simp, ?_, ?_⟩
        · simp [hc', h2]
        · simpa using h3
      | cons l ls =>
        refine ⟨(c :: l) :: ls, last, ?_, h2, ?_⟩
        · intro l' hl'
          rcases List.mem_cons.1 hl' with e | e
          · have := h1 l (by simp)
            simp [e, hc', this]
          · exact h1 l' (List.mem_cons_of_mem _ e)
        · simp [List.flatMap_cons, h3]

/-- C7: on a file made of the lines `ls` (each closed by a newline) and a
last line `last` without one, a `loadFromFile` that opens the file returns
normally, keeps the contacts it had as a prefix and appends, in file order,
one basic contact for each line that has a comma, split at a comma; lines
without a comma add nothing. By `exists_lines` every file has this shape. -/
theorem C7_loadFromFile_lines (w : World) (ls : List Text) (last : Text)
    (hls : ∀ l ∈ ls, '\n' ∉ l) (hlast : '\n' ∉ last)
    (hfile : w.file = ls.flatMap (fun l => l ++ ['\n']) ++ last) :
    (loadFromFile true w).1 = .ok () ∧
    ∃ added,
      (loadFromFile true w).2.contacts = w.contacts ++ added ∧
      added.length =
        ((ls ++ if last = [] then [] else [last]).filter (fun l => ',' ∈ l)).length ∧
      List.Forall₂ (fun l c => ∃ n p, c = Contact.basic n p ∧ ',' ∉ n ∧ n ++ ',' :: p = l)
        ((ls ++ if last = [] then [] else [last]).filter (fun l => ',' ∈ l)) added := by
  rw [loadFromFile_eq w ls last hls hlast hfile]
  obtain ⟨added, ha, hb⟩ :=
    foldl_loadLine_contacts (ls ++ if last = [] then [] else [last]) w
  exact ⟨rfl, added, by simpa [World.print] using ha, hb.length_eq.symm, hb⟩

/-! ## `saveToFile` followed by `loadFromFile` -/

theorem foldl_loadLine_saved (cs : List Contact) (w : World)
    (h : ∀ c ∈ cs, ',' ∉ c.getName) :
    ((cs.map (fun c => c.getName ++ ',' :: c.getPhone)).foldl
        (fun w l => loadLine l w) w).contacts =
      w.contacts ++ cs.map (fun c => Contact.basic c.getName c.getPhone) := by
  induction cs generalizing w with
  | nil => simp
  | cons c cs ih =>
    have hc : ',' ∉ c.getName := h c (by simp)
    have hcs : ∀ c' ∈ cs, ',' ∉ c'.getName := fun c' h' => h c' (List.mem_cons_of_mem _ h')
    rw [List.map_cons, List.foldl_cons, loadLine_split _ _ w hc, ih _ hcs]
    simp [World.pushNew]

theorem saveToFile_file_lines (w : World) :
    (saveToFile true w).2.file =
      (w.contacts.map (fun c => c.getName ++ ',' :: c.getPhone)).flatMap
        (fun l => l ++ ['\n']) ++ [] := by
  rw [saveToFile_file, List.append_nil, List.flatMap_def, List.flatMap_def, List.map_map]
  congr 1
  apply List.map_congr_left
  intro c _
  simp

/-- Saving and loading into a fresh phone book, when no name has a comma or
a newline and no phone has a newline: each contact comes back as a basic
contact with its name and phone. -/
theorem load_save_contacts (w : World)
    (h : ∀ c ∈ w.contacts, ',' ∉ c.getName ∧ '\n' ∉ c.getName ∧ '\n' ∉ c.getPhone) :
    (loadFromFile true (World.start (saveToFile true w).2.file)).2.contacts =
      w.contacts.map (fun c => Contact.basic c.getName c.getPhone) := by
  have hls : ∀ l ∈ w.contacts.map (fun c => c.getName ++ ',' :: c.getPhone), '\n' ∉ l := by
    intro l hl
    obtain ⟨c, hc, rfl⟩ := List.mem_map.1 hl
    obtain ⟨_, h2, h3⟩ := h c hc
    simp [h2, h3]
  rw [loadFromFile_eq (World.start (saveToFile true w).2.file) _ [] hls (by simp)
    (by simpa [World.start] using saveToFile_file_lines w)]
  simp only [World.print, if_true, List.append_nil]
  rw [foldl_loadLine_saved _ _ (fun c hc => (h c hc).1)]
  simp [World.start]

/-- C8: for a line with a comma the body of the loading loop appends one
basic contact `n`, `p` with no comma in `n` and `n ++ "," ++ p` equal to the
line, so `n` is the text before the first comma and `p` all the text after
it. When the line is `name,phone` with a comma in `name`, both `n` and `p`
differ from `name` and `phone`; and saving a phone book that holds just such
a contact and loading the file gives back exactly the contact `n`, `p`. -/
theorem C8_loadLine_first_comma (line : Text) (w : World) (h : ',' ∈ line) :
    ∃ n p,
      (loadLine line w).contacts = w.contacts ++ [Contact.basic n p] ∧
      ',' ∉ n ∧ n ++ [','] ++ p = line ∧
      (∀ name phone, line = name ++ [','] ++ phone → ',' ∈ name →
        n ≠ name ∧ p ≠ phone) ∧
      (∀ c : Contact, line = c.getName ++ [','] ++ c.getPhone → '\n' ∉ line →
        (loadFromFile true
          (World.start (saveToFile true { w with contacts := [c] }).2.file)).2.contacts =
          [Contact.basic n p]) := by
  obtain ⟨n, p, h1, h2, h3⟩ := loadLine_of_mem line h
  refine ⟨n, p, by simp [h1 w, World.pushNew], h2, by simpa using h3, ?_, ?_⟩
  · intro name phone hline hname
    have hn : n ≠ name := fun e => h2 (e ▸ hname)
    refine ⟨hn, ?_⟩
    intro e
    apply hn
    have e2 : n ++ ',' :: p = name ++ ',' :: p := by
      rw [h3, hline, e]; simp
    exact List.append_cancel_right e2
  · intro c hline hnl
    have hfile : (World.start (saveToFile true { w with contacts := [c] }).2.file).file =
        [line].flatMap (fun l => l ++ ['\n']) ++ [] := by
      simp [World.start, saveToFile_file, hline]
    rw [loadFromFile_eq _ [line] [] (by simpa using hnl) (by simp) hfile]
    simp [World.print, h1, World.pushNew, World.start]

/-- C2, as stated, fails: a contact named `a,b` with phone `1` is saved as the
line `a,b,1` and comes back with name `a` and phone `b,1`; a newline in a
name or in a phone breaks the record into two lines. -/
theorem C2_counterexample :
    ((loadFromFile true (World.start (saveToFile true commaWorld).2.file)).2.contacts.map
        (fun c => (c.getName, c.getPhone)) = [("a".toList, "b,1".toList)] ∧
      (loadFromFile true (World.start (saveToFile true commaWorld).2.file)).2.contacts.map
        (fun c => (c.getName, c.getPhone)) ≠
      commaWorld.contacts.map (fun c => (c.getName, c.getPhone))) ∧
    (loadFromFile true (World.start (saveToFile true
        { commaWorld with contacts := [.basic "a".toList "1\n2,3".toList] }).2.file)).2.contacts.map
        (fun c => (c.getName, c.getPhone)) ≠ [("a".toList, "1\n2,3".toList)] ∧
    (loadFromFile true (World.start (saveToFile true
        { commaWorld with contacts := [.basic "a\nb".toList "1".toList] }).2.file)).2.contacts.map
        (fun c => (c.getName, c.getPhone)) ≠ [("a\nb".toList, "1".toList)] := by
  decide

/-- C2, amended: when no name has a comma or a newline and no phone has a
newline, saving and then loading the file into a fresh phone book both return
normally and give the same (name, phone) pairs in the same order, every
contact coming back as a basic contact (the company is lost). -/
theorem C2_roundtrip_pairs (w : World)
    (h : ∀ c ∈ w.contacts, ',' ∉ c.getName ∧ '\n' ∉ c.getName ∧ '\n' ∉ c.getPhone) :
    (saveToFile true w).1 = .ok () ∧
    (loadFromFile true (World.start (saveToFile true w).2.file)).1 = .ok () ∧
    (loadFromFile true (World.start (saveToFile true w).2.file)).2.contacts.map
        (fun c => (c.getName, c.getPhone)) =
      w.contacts.map (fun c => (c.getName, c.getPhone)) ∧
    (∀ c ∈ (loadFromFile true (World.start (saveToFile true w).2.file)).2.contacts,
      ∃ n p, c = Contact.basic n p) := by
  refine ⟨rfl, rfl, ?_, ?_⟩
  · rw [load_save_contacts w h, List.map_map]
    apply List.map_congr_left
    intro c _
    rfl
  · rw [load_save_contacts w h]
    intro c hc
    obtain ⟨c', _, rfl⟩ := List.mem_map.1 hc
    exact ⟨_, _, rfl⟩

/-! ## `display` -/

theorem length_setw (w : Nat) (s : Text) (h : s.length ≤ w) : (setw w s).length = w := by
  simp only [setw, List.length_append, List.length_replicate]
  omega

/-- C9, as stated, fails: for the basic contact `Ann`, `555-1111`,
`Contact::display` writes the 35 characters of the name and phone fields and
the newline; the row with 20 more blanks (55 characters) is not what it
writes, with or without the newline. -/
theorem C9_counterexample :
    Contact.display (.basic "Ann".toList "555-1111".toList) =
      "Ann".toList ++ List.replicate 17 ' ' ++ "555-1111".toList ++ List.replicate 7 ' ' ++
        ['\n'] ∧
    (Contact.display (.basic "Ann".toList "555-1111".toList)).length = 35 + 1 ∧
    Contact.display (.basic "Ann".toList "555-1111".toList) ≠
      "Ann".toList ++ List.replicate 17 ' ' ++ "555-1111".toList ++ List.replicate 7 ' ' ++
        List.replicate 20 ' ' ++ ['\n'] ∧
    Contact.display (.basic "Ann".toList "555-1111".toList) ≠
      "Ann".toList ++ List.replicate 17 ' ' ++ "555-1111".toList ++ List.replicate 7 ' ' ++
        List.replicate 20 ' ' := by
  decide

/-- C9, amended: for a basic contact whose name has at most 20 characters and
whose phone has at most 15, `display` writes a row of 35 characters and the
newline: the name padded with spaces to 20 characters, then the phone padded
with spaces to 15, and no company column. -/
theorem C9_display_basic (name phone : Text)
    (hn : name.length ≤ 20) (hp : phone.length ≤ 15) :
    (Contact.display (.basic name phone)).length = 35 + 1 ∧
    (Contact.display (.basic name phone)).take 20 =
      name ++ List.replicate (20 - name.length) ' ' ∧
    ((Contact.display (.basic name phone)).drop 20).take 15 =
      phone ++ List.replicate (15 - phone.length) ' ' ∧
    (Contact.display (.basic name phone)).drop 35 = ['\n'] := by
  have h20 := length_setw 20 name hn
  have h15 := length_setw 15 phone hp
  have e : Contact.display (.basic name phone) =
      setw 20 name ++ (setw 15 phone ++ ['\n']) := by
    simp [Contact.display]
  refine ⟨?_, ?_, ?_, ?_⟩
  · rw [e]; simp only [List.length_append, h20, h15, List.length_singleton]
  · rw [e, List.take_left' h20]; rfl
  · rw [e, List.drop_left' h20, List.take_left' h15]; rfl
  · rw [e, show 35 = 20 + 15 from rfl, ← List.drop_drop, List.drop_left' h20,
      List.drop_left' h15]

/-- C10: for a business contact whose name has at most 20 characters, phone
at most 15 and company at most 20, `display` writes a row of 55 characters
and the newline: the name padded with spaces to 20 characters, the phone
padded to 15 and the company padded to 20, so the company text starts at
offset 35. -/
theorem C10_display_business (name phone company : Text)
    (hn : name.length ≤ 20) (hp : phone.length ≤ 15) (hc : company.length ≤ 20) :
    (Contact.display (.business name phone company)).length = 55 + 1 ∧
    (Contact.display (.business name phone company)).take 20 =
      name ++ List.replicate (20 - name.length) ' ' ∧
    ((Contact.display (.business name phone company)).drop 20).take 15 =
      phone ++ List.replicate (15 - phone.length) ' ' ∧
    ((Contact.display (.business name phone company)).drop 35).take 20 =
      company ++ List.replicate (20 - company.length) ' ' ∧
    ((Contact.display (.business name phone company)).drop 35).take company.length =
      company ∧
    (Contact.display (.business name phone company)).drop 55 = ['\n'] := by
  have h20 := length_setw 20 name hn
  have h15 := length_setw 15 phone hp
  have h20c := length_setw 20 company hc
  have e : Contact.display (.business name phone company) =
      setw 20 name ++ (setw 15 phone ++ (setw 20 company ++ ['\n'])) := by
    simp [Contact.display]
  have e35 : (Contact.display (.business name phone company)).drop 35 =
      setw 20 company ++ ['\n'] := by
    rw [e, show 35 = 20 + 15 from rfl, ← List.drop_drop, List.drop_left' h20,
      List.drop_left' h15]
  refine ⟨?_, ?_, ?_, ?_, ?_, ?_⟩
  · rw [e]; simp only [List.length_append, h20, h15, h20c, List.length_singleton]
  · rw [e, List.take_left' h20]; rfl
  · rw [e, List.drop_left' h20, List.take_left' h15]; rfl
  · rw [e35, List.take_left' h20c]; rfl
  · rw [e35, setw, List.append_assoc, List.take_left' rfl]
  · rw [show 55 = 35 + 20 from rfl, ← List.drop_drop, e35, List.drop_left' h20c]

/-- Witness of C9: the contact `Ann`, `555-1111`. -/
theorem C9_display_basic_witness :
    "Ann".toList.length ≤ 20 ∧ "555-1111".toList.length ≤ 15 ∧
    ((Contact.display (.basic "Ann".toList "555-1111".toList)).length = 35 + 1 ∧
    (Contact.display (.basic "Ann".toList "555-1111".toList)).take 20 =
      "Ann".toList ++ List.replicate (20 - "Ann".toList.length) ' ' ∧
    ((Contact.display (.basic "Ann".toList "555-1111".toList)).drop 20).take 15 =
      "555-1111".toList ++ List.replicate (15 - "555-1111".toList.length) ' ' ∧
    (Contact.display (.basic "Ann".toList "555-1111".toList)).drop 35 = ['\n']) :=
  ⟨by decide, by decide,
    C9_display_basic "Ann".toList "555-1111".toList (by decide) (by decide)⟩

/-- Witness of C10: the contact `Bob`, `555-2222`, `Acme`, whose company is
at offsets 35 to 38 of the row. -/
theorem C10_display_business_witness :
    "Bob".toList.length ≤ 20 ∧ "555-2222".toList.length ≤ 15 ∧ "Acme".toList.length ≤ 20 ∧
    ((Contact.display (.business "Bob".toList "555-2222".toList "Acme".toList)).length =
      55 + 1 ∧
    (Contact.display (.business "Bob".toList "555-2222".toList "Acme".toList)).take 20 =
      "Bob".toList ++ List.replicate (20 - "Bob".toList.length) ' ' ∧
    ((Contact.display (.business "Bob".toList "555-2222".toList "Acme".toList)).drop 20).take 15 =
      "555-2222".toList ++ List.replicate (15 - "555-2222".toList.length) ' ' ∧
    ((Contact.display (.business "Bob".toList "555-2222".toList "Acme".toList)).drop 35).take 20 =
      "Acme".toList ++ List.replicate (20 - "Acme".toList.length) ' ' ∧
    ((Contact.display (.business "Bob".toList "555-2222".toList "Acme".toList)).drop 35).take
      "Acme".toList.length = "Acme".toList ∧
    (Contact.display (.business "Bob".toList "555-2222".toList "Acme".toList)).drop 55 =
      ['\n']) :=
  ⟨by decide, by decide, by decide,
    C10_display_business "Bob".toList "555-2222".toList "Acme".toList
      (by decide) (by decide) (by decide)⟩

/-- Witness of C7: the file `garbageFile`, whose second line has no comma. -/
theorem C7_loadFromFile_lines_witness :
    (∀ l ∈ garbageLines, '\n' ∉ l) ∧ '\n' ∉ ([] : Text) ∧
    (World.start garbageFile).file = garbageLines.flatMap (fun l => l ++ ['\n']) ++ [] ∧
    ((loadFromFile true (World.start garbageFile)).1 = .ok () ∧
    ∃ added,
      (loadFromFile true (World.start garbageFile)).2.contacts =
        (World.start garbageFile).contacts ++ added ∧
      added.length =
        ((garbageLines ++ if ([] : Text) = [] then [] else [[]]).filter
          (fun l => ',' ∈ l)).length ∧
      List.Forall₂ (fun l c => ∃ n p, c = Contact.basic n p ∧ ',' ∉ n ∧ n ++ ',' :: p = l)
        ((garbageLines ++ if ([] : Text) = [] then [] else [[]]).filter
          (fun l => ',' ∈ l)) added) :=
  ⟨by decide, by decide, by decide,
    C7_loadFromFile_lines (World.start garbageFile) garbageLines [] (by decide) (by decide)
      (by decide)⟩

/-- Witness of C8: the line `a,b,1`, which `saveToFile` writes for the
contact of `commaWorld`. -/
theorem C8_loadLine_first_comma_witness :
    ',' ∈ "a,b,1".toList ∧
    ∃ n p,
      (loadLine "a,b,1".toList commaWorld).contacts =
        commaWorld.contacts ++ [Contact.basic n p] ∧
      ',' ∉ n ∧ n ++ [','] ++ p = "a,b,1".toList ∧
      (∀ name phone, "a,b,1".toList = name ++ [','] ++ phone → ',' ∈ name →
        n ≠ name ∧ p ≠ phone) ∧
      (∀ c : Contact, "a,b,1".toList = c.getName ++ [','] ++ c.getPhone →
        '\n' ∉ "a,b,1".toList →
        (loadFromFile true
          (World.start
            (saveToFile true { commaWorld with contacts := [c] }).2.file)).2.contacts =
          [Contact.basic n p]) :=
  ⟨by decide, C8_loadLine_first_comma "a,b,1".toList commaWorld (by decide)⟩

/-- Witness of C2 as amended: no name of `sampleWorld` has a comma or a
newline and no phone has a newline. -/
theorem C2_roundtrip_pairs_witness :
    (∀ c ∈ sampleWorld.contacts,
      ',' ∉ c.getName ∧ '\n' ∉ c.getName ∧ '\n' ∉ c.getPhone) ∧
    ((saveToFile true sampleWorld).1 = .ok () ∧
    (loadFromFile true (World.start (saveToFile true sampleWorld).2.file)).1 = .ok () ∧
    (loadFromFile true (World.start (saveToFile true sampleWorld).2.file)).2.contacts.map
        (fun c => (c.getName, c.getPhone)) =
      sampleWorld.contacts.map (fun c => (c.getName, c.getPhone)) ∧
    (∀ c ∈ (loadFromFile true (World.start (saveToFile true sampleWorld).2.file)).2.contacts,
      ∃ n p, c = Contact.basic n p)) :=
  ⟨by decide, C2_roundtrip_pairs sampleWorld (by decide)⟩

/-! ## `searchByName` -/

theorem searchByName_of_not_found (key : Text) (w : World)
    (h : searchContact w.contacts key = -1) :
    searchByName key w =
      { w with cout := w.cout ++ "Enter name to search: ".toList ++
          " Contact not found!\n".toList } := by
  simp [searchByName, World.print, h]

theorem searchByName_of_found (key : Text) (w : World) (i : Nat) (c : Contact)
    (h : searchContact w.contacts key = (i : Int)) (hc : w.contacts[i]? = some c) :
    searchByName key w =
      { w with cout := w.cout ++ "Enter name to search: ".toList ++
          "\nContact Found!\n".toList ++ "\n--- Contact Details ---\n".toList ++
          "Name: ".toList ++ c.getName ++ "\nPhone: ".toList ++ c.getPhone ++
          "\n".toList } := by
  have hne : searchContact w.contacts key ≠ -1 := by rw [h]; omega
  simp only [searchByName, World.print, hne, ne_eq, not_false_eq_true, if_true]
  rw [h]
  simp only [Int.toNat_ofNat, hc, showContactDetails, World.print, World.printText,
    List.append_assoc]

set_option maxRecDepth 20000 in
/-- C11, as stated, fails: searching `Bob` in `sampleWorld` finds the business
contact `Bob`, `555-2222`, `Acme` and prints its name and phone; the company
`Acme` is nowhere in the output. -/
theorem C11_counterexample :
    sampleWorld.contacts[1]? =
      some (.business "Bob".toList "555-2222".toList "Acme".toList) ∧
    (searchByName "Bob".toList sampleWorld).cout =
      ("Enter name to search: \nContact Found!\n\n--- Contact Details ---\n" ++
        "Name: Bob\nPhone: 555-2222\n").toList ∧
    ¬ ("Acme".toList <:+: (searchByName "Bob".toList sampleWorld).cout) := by
  decide

/-- C11, amended: `searchByName` prints `Contact not found!` exactly when no
contact is named `key`; otherwise it prints `Contact Found!` and the name and
the phone of the first contact named `key`, and nothing else of that contact:
the output for a business contact does not depend on its company. The
phone book itself is left as it was. -/
theorem C11_searchByName_output (w : World) (key : Text) :
    ((searchByName key w).cout =
        w.cout ++ "Enter name to search: ".toList ++ " Contact not found!\n".toList ↔
      ∀ c ∈ w.contacts, c.getName ≠ key) ∧
    (∀ (i : Nat) (c : Contact), w.contacts[i]? = some c → c.getName = key →
      (∀ j, j < i → (w.contacts.map Contact.getName)[j]? ≠ some key) →
      (searchByName key w).cout =
        w.cout ++ "Enter name to search: ".toList ++ "\nContact Found!\n".toList ++
          "\n--- Contact Details ---\n".toList ++
          "Name: ".toList ++ c.getName ++ "\nPhone: ".toList ++ c.getPhone ++
          "\n".toList) ∧
    (searchByName key w).contacts = w.contacts ∧
    (searchByName key w).totalContacts = w.totalContacts ∧
    (searchByName key w).file = w.file := by
  have found : ∀ (i : Nat) (c : Contact), w.contacts[i]? = some c → c.getName = key →
      (∀ j, j < i → (w.contacts.map Contact.getName)[j]? ≠ some key) →
      searchByName key w =
        { w with cout := w.cout ++ "Enter name to search: ".toList ++
            "\nContact Found!\n".toList ++ "\n--- Contact Details ---\n".toList ++
            "Name: ".toList ++ c.getName ++ "\nPhone: ".toList ++ c.getPhone ++
            "\n".toList } := by
    intro i c hc hn hfirst
    have hs : searchContact w.contacts key = (i : Int) := by
      rw [searchContact_eq_index]
      exact ⟨by simp [List.getElem?_map, hc, hn], hfirst⟩
    exact searchByName_of_found key w i c hs hc
  rcases searchContact_cases w.contacts key with h | ⟨i, _, h⟩
  · have e := searchByName_of_not_found key w h
    have hall := (searchContact_eq_neg_one w.contacts key).1 h
    refine ⟨?_, ?_, ?_, ?_, ?_⟩
    · rw [e]; exact ⟨fun _ => hall, fun _ => rfl⟩
    · intro i c hc hn hfirst; rw [found i c hc hn hfirst]
    · rw [e]
    · rw [e]
    · rw [e]
  · obtain ⟨c, hc, hn⟩ := getName_of_found w.contacts key i h
    have e := searchByName_of_found key w i c h hc
    refine ⟨?_, ?_, ?_, ?_, ?_⟩
    · rw [e]
      constructor
      · intro hcout
        exfalso
        simp only [List.append_assoc, List.append_cancel_left_eq] at hcout
        rw [show "\nContact Found!\n".toList = '\n' :: "Contact Found!\n".toList from rfl,
          show " Contact not found!\n".toList = ' ' :: "Contact not found!\n".toList from rfl,
          List.cons_append] at hcout
        injection hcout with hhead _
        exact absurd hhead (by decide)
      · intro hall
        exact absurd hn (hall c (List.getElem?_mem hc))
    · intro i' c' hc' hn' hfirst; rw [found i' c' hc' hn' hfirst]
    · rw [e]
    · rw [e]
    · rw [e]

/-! ## File errors -/

/-- C12: when `phonebook.txt` cannot be opened for writing, `saveToFile`
throws `FileException` and leaves the whole state, the vector of contacts
included, as it was, also after `main` has caught and reported the exception;
a `saveToFile` that opens the file returns normally and leaves the vector and
the counter as they were. -/
theorem C12_saveToFile_keeps_contacts (w : World) :
    (saveToFile false w).1 = .error {} ∧
    (saveToFile false w).2 = w ∧
    (catchFileException (saveToFile false w)).contacts = w.contacts ∧
    (catchFileException (saveToFile false w)).cout =
      w.cout ++ " File could not be opened!\n".toList ∧
    (saveToFile true w).1 = .ok () ∧
    (saveToFile true w).2.contacts = w.contacts ∧
    (saveToFile true w).2.totalContacts = w.totalContacts :=
  ⟨rfl, rfl, rfl, by simp [catchFileException, saveToFile, World.print, World.printText,
    FileException.what], rfl, rfl, rfl⟩

/-- C13: when `phonebook.txt` cannot be opened for reading, `loadFromFile`
throws `FileException` and leaves the whole state as it was; at the start of
`main` the exception is caught and reported, and the menu loop is entered
with an empty phone book and the counter at 0. -/
theorem C13_loadFromFile_failure (w : World) (file : Text) :
    (loadFromFile false w).1 = .error {} ∧
    (loadFromFile false w).2 = w ∧
    (catchFileException (loadFromFile false w)).contacts = w.contacts ∧
    (mainStartup false file).contacts = [] ∧
    (mainStartup false file).totalContacts = 0 ∧
    (mainStartup false file).file = file ∧
    (mainStartup false file).cout =
      ("\n==============================================" ++
        "\n     PHONE BOOK MANAGEMENT SYSTEM (C++)" ++
        "\n==============================================\n" ++
        " File could not be opened!\n").toList :=
  ⟨rfl, rfl, rfl, rfl, rfl, rfl, rfl⟩

/-! ## `addContact` -/

theorem addContact_contacts (type : Int) (name phone company : Text) (w : World) :
    (addContact type name phone company w).contacts =
      w.contacts ++
        [if type = 2 then Contact.business name phone company
         else Contact.basic name phone] := by
  by_cases h : type = 2 <;> simp [addContact, World.print, World.pushNew, h]

theorem addContact_totalContacts (type : Int) (name phone company : Text) (w : World) :
    (addContact type name phone company w).totalContacts = w.totalContacts + 1 := by
  by_cases h : type = 2 <;> simp [addContact, World.print, World.pushNew, h]

theorem addContact_file (type : Int) (name phone company : Text) (w : World) :
    (addContact type name phone company w).file = w.file := by
  by_cases h : type = 2 <;> simp [addContact, World.print, World.pushNew, h]

theorem searchContact_append_of_found (cs extra : List Contact) (key : Text) (i : Nat)
    (h : searchContact cs key = (i : Int)) :
    searchContact (cs ++ extra) key = (i : Int) := by
  obtain ⟨h1, h2⟩ := (searchContact_eq_index cs key i).1 h
  have hi : i < (cs.map Contact.getName).length := by
    by_contra hlt
    rw [List.getElem?_eq_none (by omega)] at h1
    exact absurd h1 (by simp)
  rw [searchContact_eq_index, List.map_append]
  refine ⟨?_, ?_⟩
  · rw [List.getElem?_append_left hi]; exact h1
  · intro j hj
    rw [List.getElem?_append_left (by omega)]
    exact h2 j hj

/-- C14: when `searchContact` finds `key` at index `i`, it still returns `i`
after `addContact`, whatever contact is added, one named `key` included. -/
theorem C14_search_stable_under_add (w : World) (key : Text) (i : Nat)
    (type : Int) (name phone company : Text)
    (h : searchContact w.contacts key = (i : Int)) :
    searchContact (addContact type name phone company w).contacts key = (i : Int) ∧
    searchContact (addContact type key phone company w).contacts key = (i : Int) := by
  rw [addContact_contacts, addContact_contacts]
  exact ⟨searchContact_append_of_found _ _ key i h,
    searchContact_append_of_found _ _ key i h⟩

/-- Witness of C14: `Bob` is found at index 1 of `sampleWorld`, also after a
third `Bob` is added. -/
theorem C14_search_stable_under_add_witness :
    searchContact sampleWorld.contacts "Bob".toList = ((1 : Nat) : Int) ∧
    (searchContact
        (addContact 1 "Bob".toList "555-4444".toList [] sampleWorld).contacts
        "Bob".toList = ((1 : Nat) : Int) ∧
      searchContact
        (addContact 1 "Bob".toList "555-4444".toList [] sampleWorld).contacts
        "Bob".toList = ((1 : Nat) : Int)) :=
  ⟨by decide,
    C14_search_stable_under_add sampleWorld "Bob".toList 1 1 "Bob".toList
      "555-4444".toList [] (by decide)⟩

/-- C15: `addContact` returns normally with the new contact appended as the
last element of the vector, a business contact when the type read is 2 and a
basic contact otherwise: one element more, every earlier contact at its index,
the counter one higher, the file untouched and the success message printed
last. Nothing is required of the name or the phone. -/
theorem C15_addContact_appends (w : World) (type : Int) (name phone company : Text) :
    (addContact type name phone company w).contacts =
      w.contacts ++
        [if type = 2 then Contact.business name phone company
         else Contact.basic name phone] ∧
    (addContact type name phone company w).contacts.length = w.contacts.length + 1 ∧
    (∀ j, j < w.contacts.length →
      (addContact type name phone company w).contacts[j]? = w.contacts[j]?) ∧
    (addContact type name phone company w).contacts.getLast? =
      some (if type = 2 then Contact.business name phone company
            else Contact.basic name phone) ∧
    (addContact type name phone company w).totalContacts = w.totalContacts + 1 ∧
    (addContact type name phone company w).file = w.file ∧
    "\n Contact added successfully!\n".toList <:+
      (addContact type name phone company w).cout := by
  refine ⟨addContact_contacts _ _ _ _ _, ?_, ?_, ?_, addContact_totalContacts _ _ _ _ _,
    addContact_file _ _ _ _ _, ?_⟩
  · rw [addContact_contacts]; simp
  · intro j hj
    rw [addContact_contacts, List.getElem?_append_left hj]
  · rw [addContact_contacts]; simp
  · exact ⟨_, rfl⟩

/-! ## The counter `totalContacts` -/

theorem loadLine_counter (line : Text) (w : World)
    (h : w.totalContacts = (w.contacts.length : Int)) :
    (loadLine line w).totalContacts = ((loadLine line w).contacts.length : Int) := by
  cases hf : find ',' line with
  | none => simpa [loadLine, hf] using h
  | some pos => simp [loadLine, hf, World.pushNew, h]

theorem loadLoop_counter (fuel : Nat) (fin : Text) (w : World)
    (h : w.totalContacts = (w.contacts.length : Int)) :
    (loadLoop fuel fin w).totalContacts = ((loadLoop fuel fin w).contacts.length : Int) := by
  induction fuel generalizing fin w with
  | zero => simpa [loadLoop] using h
  | succ n ih =>
    cases hg : getline fin with
    | none => simpa [loadLoop, hg] using h
    | some r =>
      obtain ⟨line, rest⟩ := r
      simp only [loadLoop, hg]
      exact ih rest (loadLine line w) (loadLine_counter line w h)

theorem catchFileException_counter (r : Except FileException Unit × World)
    (h : r.2.totalContacts = (r.2.contacts.length : Int)) :
    (catchFileException r).totalContacts = ((catchFileException r).contacts.length : Int) := by
  obtain ⟨o, w⟩ := r
  cases o <;> simpa [catchFileException, World.print, World.printText] using h

theorem loadFromFile_counter (opens : Bool) (w : World)
    (h : w.totalContacts = (w.contacts.length : Int)) :
    (loadFromFile opens w).2.totalContacts =
      ((loadFromFile opens w).2.contacts.length : Int) := by
  cases opens
  · simpa [loadFromFile] using h
  · simpa [loadFromFile, World.print] using loadLoop_counter _ _ w h

theorem saveToFile_counter (opens : Bool) (w : World)
    (h : w.totalContacts = (w.contacts.length : Int)) :
    (saveToFile opens w).2.totalContacts =
      ((saveToFile opens w).2.contacts.length : Int) := by
  cases opens <;> simpa [saveToFile, World.print] using h

theorem deleteContact_counter (key : Text) (w : World)
    (h : w.totalContacts = (w.contacts.length : Int)) :
    (deleteContact key w).totalContacts = ((deleteContact key w).contacts.length : Int) := by
  rcases searchContact_cases w.contacts key with hs | ⟨i, hi, hs⟩
  · rw [deleteContact_of_not_found key w hs]; exact h
  · rw [deleteContact_of_found key w i hs]
    simp only [List.length_eraseIdx, hi, if_true, h]
    omega

theorem searchByName_frame (key : Text) (w : World) :
    (searchByName key w).totalContacts = w.totalContacts ∧
      (searchByName key w).contacts = w.contacts := by
  rcases searchContact_cases w.contacts key with hs | ⟨i, _, hs⟩
  · rw [searchByName_of_not_found key w hs]; exact ⟨rfl, rfl⟩
  · obtain ⟨c, hc, _⟩ := getName_of_found w.contacts key i hs
    rw [searchByName_of_found key w i c hs hc]; exact ⟨rfl, rfl⟩

theorem foldl_display_eq (cs : List Contact) (w : World) :
    cs.foldl (fun w c => w.printText c.display) w =
      { w with cout := w.cout ++ (cs.map Contact.display).flatten } := by
  induction cs generalizing w with
  | nil => simp
  | cons c cs ih =>
    rw [List.foldl_cons, ih]
    simp [World.printText, List.append_assoc]

theorem displayAll_eq (w : World) :
    displayAll w =
      { w with cout := w.cout ++ "\n---------------------------------------------\n".toList ++
          (setw 20 "Name".toList ++ setw 15 "Phone".toList ++ setw 20 "Company".toList ++
            ['\n']) ++
          "---------------------------------------------\n".toList ++
          (w.contacts.map Contact.display).flatten ++
          "---------------------------------------------\n".toList ++
          "Total Contacts: ".toList ++ (toString w.totalContacts).toList ++ "\n".toList } := by
  simp only [displayAll]
  simp only [foldl_display_eq]
  simp only [World.print, World.printText, World.printInt, List.append_assoc]

theorem Op.run_counter (op : Op) (w : World)
    (h : w.totalContacts = (w.contacts.length : Int)) :
    (op.run w).totalContacts = ((op.run w).contacts.length : Int) := by
  cases op with
  | load opens => exact catchFileException_counter _ (loadFromFile_counter opens w h)
  | add type name phone company =>
    simp only [Op.run, addContact_totalContacts, addContact_contacts, List.length_append,
      List.length_singleton, h]
    push_cast; rfl
  | displayAll => simp only [Op.run, displayAll_eq]; exact h
  | search key =>
    obtain ⟨h1, h2⟩ := searchByName_frame key w
    simp only [Op.run, h1, h2, h]
  | delete key => exact deleteContact_counter key w h
  | save opens => exact catchFileException_counter _ (saveToFile_counter opens w h)

theorem runOps_counter (ops : List Op) (w : World)
    (h : w.totalContacts = (w.contacts.length : Int)) :
    (runOps ops w).totalContacts = ((runOps ops w).contacts.length : Int) := by
  induction ops generalizing w with
  | nil => simpa [runOps] using h
  | cons op ops ih =>
    simp only [runOps, List.foldl_cons]
    exact ih (op.run w) (Op.run_counter op w h)

/-- C16: in the state reached from the start of the program (counter 0, empty
phone book, any content of the file) by any sequence of load, add, display,
search, delete and save calls, the counter `totalContacts` equals the number
of contacts in the vector; so `displayAll` writes one row per contact between
the header and the footer, and the total in the footer is the number of those
rows. -/
theorem C16_counter_eq_length (file : Text) (ops : List Op) :
    (runOps ops (World.start file)).totalContacts =
      ((runOps ops (World.start file)).contacts.length : Int) ∧
    (displayAll (runOps ops (World.start file))).cout =
      (runOps ops (World.start file)).cout ++
        "\n---------------------------------------------\n".toList ++
        (setw 20 "Name".toList ++ setw 15 "Phone".toList ++ setw 20 "Company".toList ++
          ['\n']) ++
        "---------------------------------------------\n".toList ++
        ((runOps ops (World.start file)).contacts.map Contact.display).flatten ++
        "---------------------------------------------\n".toList ++
        "Total Contacts: ".toList ++
        (toString ((runOps ops (World.start file)).contacts.map Contact.display).length).toList ++
        "\n".toList := by
  have h := runOps_counter ops (World.start file) rfl
  refine ⟨h, ?_⟩
  rw [displayAll_eq, h, List.length_map]
  rfl

/-! ## The exact round trip -/

/-- C17: when no name has a comma or a newline and no phone has a newline,
saving and then loading the file into a fresh phone book gives one basic
contact per original contact, in the same order, with the same name and the
same phone; the counter of the fresh process is the number of contacts. Empty
names and phones and commas in a phone are allowed. -/
theorem C17_roundtrip_exact (w : World)
    (h : ∀ c ∈ w.contacts, ',' ∉ c.getName ∧ '\n' ∉ c.getName ∧ '\n' ∉ c.getPhone) :
    (loadFromFile true (World.start (saveToFile true w).2.file)).2.contacts =
      w.contacts.map (fun c => Contact.basic c.getName c.getPhone) ∧
    (loadFromFile true (World.start (saveToFile true w).2.file)).2.contacts.length =
      w.contacts.length ∧
    (∀ (i : Nat) (c : Contact), w.contacts[i]? = some c →
      (loadFromFile true (World.start (saveToFile true w).2.file)).2.contacts[i]? =
        some (Contact.basic c.getName c.getPhone)) ∧
    (loadFromFile true (World.start (saveToFile true w).2.file)).2.totalContacts =
      (w.contacts.length : Int) := by
  have e := load_save_contacts w h
  refine ⟨e, by rw [e, List.length_map], ?_, ?_⟩
  · intro i c hc
    rw [e, List.getElem?_map, hc]; rfl
  · have hc := loadFromFile_counter true (World.start (saveToFile true w).2.file) rfl
    rw [hc, e, List.length_map]

/-- Witness of C17: `plainWorld`, which has an empty name, empty phones and a
phone with commas. -/
theorem C17_roundtrip_exact_witness :
    (∀ c ∈ plainWorld.contacts,
      ',' ∉ c.getName ∧ '\n' ∉ c.getName ∧ '\n' ∉ c.getPhone) ∧
    ((loadFromFile true (World.start (saveToFile true plainWorld).2.file)).2.contacts =
      plainWorld.contacts.map (fun c => Contact.basic c.getName c.getPhone) ∧
    (loadFromFile true (World.start (saveToFile true plainWorld).2.file)).2.contacts.length =
      plainWorld.contacts.length ∧
    (∀ (i : Nat) (c : Contact), plainWorld.contacts[i]? = some c →
      (loadFromFile true (World.start (saveToFile true plainWorld).2.file)).2.contacts[i]? =
        some (Contact.basic c.getName c.getPhone)) ∧
    (loadFromFile true (World.start (saveToFile true plainWorld).2.file)).2.totalContacts =
      (plainWorld.contacts.length : Int)) :=
  ⟨by decide, C17_roundtrip_exact plainWorld (by decide)⟩

/-! ## `display` never truncates -/

theorem length_setw_max (w : Nat) (s : Text) : (setw w s).length = max w s.length := by
  simp only [setw, List.length_append, List.length_replicate]
  omega

theorem setw_of_le (w : Nat) (s : Text) (h : w ≤ s.length) : setw w s = s := by
  simp [setw, Nat.sub_eq_zero_of_le h]

theorem take_length_setw (w : Nat) (s rest : Text) :
    (setw w s ++ rest).take s.length = s := by
  rw [setw, List.append_assoc, List.take_left' rfl]

/-- C18: `display` never truncates. For every contact the row starts with
the whole name, has the whole phone from offset `max 20 |name|` and, for a
business contact, the whole company from offset
`max 20 |name| + max 15 |phone|`; the row has `max 20 |name| + max 15 |phone|`
characters for a basic contact, `max 20 |company|` more for a business
contact, and is followed by the newline. A field at least as long as its
column is written without any padding. -/
theorem C18_display_never_truncates (name phone company : Text) :
    ((Contact.display (.basic name phone)).length =
        max 20 name.length + max 15 phone.length + 1 ∧
      (Contact.display (.basic name phone)).take name.length = name ∧
      ((Contact.display (.basic name phone)).drop (max 20 name.length)).take phone.length =
        phone ∧
      (Contact.display (.basic name phone)).drop
        (max 20 name.length + max 15 phone.length) = ['\n']) ∧
    ((Contact.display (.business name phone company)).length =
        max 20 name.length + max 15 phone.length + max 20 company.length + 1 ∧
      (Contact.display (.business name phone company)).take name.length = name ∧
      ((Contact.display (.business name phone company)).drop
        (max 20 name.length)).take phone.length = phone ∧
      ((Contact.display (.business name phone company)).drop
        (max 20 name.length + max 15 phone.length)).take company.length = company ∧
      (Contact.display (.business name phone company)).drop
        (max 20 name.length + max 15 phone.length + max 20 company.length) = ['\n']) ∧
    (20 ≤ name.length → 15 ≤ phone.length →
      Contact.display (.basic name phone) = name ++ phone ++ ['\n']) ∧
    (20 ≤ name.length → 15 ≤ phone.length → 20 ≤ company.length →
      Contact.display (.business name phone company) =
        name ++ phone ++ company ++ ['\n']) := by
  have hn := length_setw_max 20 name
  have hp := length_setw_max 15 phone
  have hc := length_setw_max 20 company
  have e1 : Contact.display (.basic name phone) =
      setw 20 name ++ (setw 15 phone ++ ['\n']) := by
    simp [Contact.display]
  have e2 : Contact.display (.business name phone company) =
      setw 20 name ++ (setw 15 phone ++ (setw 20 company ++ ['\n'])) := by
    simp [Contact.display]
  refine ⟨⟨?_, ?_, ?_, ?_⟩, ⟨?_, ?_, ?_, ?_, ?_⟩, ?_, ?_⟩
  · rw [e1]; simp only [List.length_append, hn, hp, List.length_singleton]; omega
  · rw [e1, take_length_setw]
  · rw [e1, List.drop_left' hn, take_length_setw]
  · rw [e1, ← List.drop_drop, List.drop_left' hn, List.drop_left' hp]
  · rw [e2]; simp only [List.length_append, hn, hp, hc, List.length_singleton]; omega
  · rw [e2, take_length_setw]
  · rw [e2, List.drop_left' hn, take_length_setw]
  · rw [e2, ← List.drop_drop, List.drop_left' hn, List.drop_left' hp, take_length_setw]
  · rw [e2, ← List.drop_drop, ← List.drop_drop, List.drop_left' hn, List.drop_left' hp,
      List.drop_left' hc]
  · intro h1 h2
    rw [e1, setw_of_le 20 name h1, setw_of_le 15 phone h2, List.append_assoc]
  · intro h1 h2 h3
    rw [e2, setw_of_le 20 name h1, setw_of_le 15 phone h2, setw_of_le 20 company h3]
    simp only [List.append_assoc]

end PBMS
